import Mathlib

set_option autoImplicit false

/-!
Shallow embedding of the okina memory manager of `general/mm.cpp` (C++
namespace `mfem`, class `mm`).  Host and device addresses are modelled as
`Int` (raw pointer values); the null pointer is `0`; the device mirror
pointer is an `Option Int` (`none` models a null `d_ptr` before the lazy
allocation).  The process-wide singleton state (the ledger plus the CUDA
runtime state the backend primitives touch) is threaded explicitly as an
`MMState`; `mfem_error`, which aborts the process, is modelled as the
`Except.error` case, so an erroring call yields no post-state.  `assert`
and `MFEM_ASSERT` compile to nothing in release builds and are therefore
not modelled.  `DumpMode` only prints and is not modelled.  The global
device configuration (`Device::UsingMM()` and friends) is a record of
booleans `DevCfg` read exactly where the C++ reads the corresponding
static predicates.
-/

/-- Device configuration queries used by mm.cpp: each field models one of the
static `Device::...()` predicates, read wherever the C++ reads it. -/
structure mfem.DevCfg where
  usingMM : Bool
  hasBeenEnabled : Bool
  deviceDisabled : Bool
  usingDevice : Bool
  usingHost : Bool
  usingOcca : Bool
deriving Repr, DecidableEq

/-- One registered buffer: C++ `struct mm::memory` (declared in okina.hpp,
not under src/). Modelled from the spec: `bytes` fixed at registration,
`h_ptr` the identity host pointer, `d_ptr` the lazily allocated device
mirror (`none` = null), `host` the residency flag (`true` = HostValid,
`false` = DeviceValid), and `aliases` the back-references to the alias
structs that point inside this buffer (each identified by the heap address
of the alias struct, modelled as a `Nat` tag). -/
structure mfem.mm.memory where
  h_ptr : Int
  bytes : Nat
  host : Bool
  d_ptr : Option Int
  aliases : List Nat
deriving Repr, DecidableEq

/-- One interior-pointer record: C++ `struct mm::alias { memory *mem; long
offset; }`.  `addr` models the heap address (identity) of the alias struct
itself; `mem` models the `memory*` back-pointer by the owning record's key
(its base host pointer, which is stable for map values); `offset` is the
byte offset from the base. -/
structure mfem.mm.alias where
  addr : Nat
  mem : Int
  offset : Int
deriving Repr, DecidableEq

/-- A key of the C++ alias map `mm::alias_map` (key type `const void*`).
Keys actually inserted are interior user pointers
(`maps.aliases.emplace(ptr, alias)`), but `mm::Erase` calls
`maps.aliases.erase(alias)` with a `const alias*`, which implicitly
converts to the `const void*` key: the lookup key is then the heap address
of the alias struct.  A live alias struct is a distinct C++ object from
every byte of every live user buffer, so the two address families never
compare equal; the two constructors make that disjointness explicit. -/
inductive mfem.AliasKey where
  | userPtr (p : Int)
  | recAddr (a : Nat)
deriving Repr, DecidableEq

/-- The process-wide registry: C++ `struct mm::ledger` with its two maps
(unordered maps modelled as association lists; iteration order of
`memories` models the unspecified hash-map order). -/
structure mfem.mm.ledger where
  memories : List (Int × mfem.mm.memory)
  aliases : List (mfem.AliasKey × mfem.mm.alias)
deriving Repr, DecidableEq

/-- A call to one of the backend copy primitives, recorded for the
instrumentation of copy behaviour: direction, destination, source, bytes. -/
inductive mfem.CopyEvt where
  | htod (dst src : Int) (bytes : Nat)
  | dtoh (dst src : Int) (bytes : Nat)
  | dtod (dst src : Int) (bytes : Nat) (async : Bool)
  | hosth (dst src : Int) (bytes : Nat)
deriving Repr, DecidableEq

/-- The full explicit state: the ledger plus the backend state the C++
keeps in the CUDA runtime and the heap — the source of fresh device
addresses, the source of fresh alias-struct addresses, the set of live
device allocations, and the log of copy operations performed. -/
structure mfem.MMState where
  maps : mfem.mm.ledger
  nextDev : Int
  nextAliasAddr : Nat
  deviceAllocs : List Int
  copies : List mfem.CopyEvt
deriving Repr, DecidableEq

/-- Association-list lookup of the first entry with the given key
(`std::unordered_map::find` / `::at` on the C++ maps, which have unique
keys). -/
def mfem.findA {κ α : Type} [DecidableEq κ] : List (κ × α) → κ → Option α
  | [], _ => none
  | kv :: rest, k => if kv.1 = k then some kv.2 else mfem.findA rest k

/-- Replace the value stored at a key, leaving the keys untouched (C++
mutation through a reference obtained from `at`). -/
def mfem.replaceA {κ α : Type} [DecidableEq κ] : List (κ × α) → κ → α → List (κ × α)
  | [], _, _ => []
  | kv :: rest, k, v => if kv.1 = k then (kv.1, v) :: rest else kv :: mfem.replaceA rest k v

/-- Erase the entry with the given key (`std::unordered_map::erase(key)`;
the C++ maps have unique keys, so the filter removes at most one entry). -/
def mfem.eraseA {κ α : Type} [DecidableEq κ] (l : List (κ × α)) (k : κ) : List (κ × α) :=
  l.filter (fun kv => kv.1 ≠ k)

/-- Insert only if the key is absent (`std::unordered_map::emplace`). -/
def mfem.emplaceA {κ α : Type} [DecidableEq κ] (l : List (κ × α)) (k : κ) (v : α) :
    List (κ × α) :=
  if (mfem.findA l k).isSome then l else l ++ [(k, v)]

/-- Write a memory record back through the reference obtained from
`maps.memories.at` (keys unchanged). -/
def mfem.setMem (s : mfem.MMState) (k : Int) (m : mfem.mm.memory) : mfem.MMState :=
  { s with maps := { s.maps with memories := mfem.replaceA s.maps.memories k m } }

/-- Backend `CuMemAlloc(&p, bytes)`: always succeeds in the model, handing
out a fresh non-null device address and recording the live allocation. -/
def mfem.CuMemAlloc (s : mfem.MMState) (bytes : Nat) : Int × mfem.MMState :=
  (s.nextDev,
   { s with nextDev := s.nextDev + (bytes : Int) + 1,
            deviceAllocs := s.deviceAllocs ++ [s.nextDev] })

/-- Backend `CuMemcpyHtoD(dst, src, bytes)`: recorded in the copy log. -/
def mfem.CuMemcpyHtoD (s : mfem.MMState) (dst src : Int) (bytes : Nat) : mfem.MMState :=
  { s with copies := s.copies ++ [mfem.CopyEvt.htod dst src bytes] }

/-- Backend `CuMemcpyDtoH(dst, src, bytes)`: recorded in the copy log. -/
def mfem.CuMemcpyDtoH (s : mfem.MMState) (dst src : Int) (bytes : Nat) : mfem.MMState :=
  { s with copies := s.copies ++ [mfem.CopyEvt.dtoh dst src bytes] }

/-- Backend `CuMemcpyDtoD` and `CuMemcpyDtoDAsync`: recorded in the log. -/
def mfem.CuMemcpyDtoD (s : mfem.MMState) (dst src : Int) (bytes : Nat) (async : Bool) :
    mfem.MMState :=
  { s with copies := s.copies ++ [mfem.CopyEvt.dtod dst src bytes async] }

/-- Host `std::memcpy(dst, src, bytes)`: recorded in the copy log. -/
def mfem.hostMemcpy (s : mfem.MMState) (dst src : Int) (bytes : Nat) : mfem.MMState :=
  { s with copies := s.copies ++ [mfem.CopyEvt.hosth dst src bytes] }

/-- Static `Known(maps, ptr)` of mm.cpp: membership in the memories map. -/
def mfem.Known (maps : mfem.mm.ledger) (ptr : Int) : Bool :=
  (mfem.findA maps.memories ptr).isSome

/-- Method `mm::Known(ptr)`. -/
def mfem.mm.Known (s : mfem.MMState) (ptr : Int) : Bool :=
  mfem.Known s.maps ptr

/-- Static `IsAlias(maps, ptr)` of mm.cpp: scan all memories, skip records
whose base lies above `ptr`, and return the first base whose half-open
byte range `[b, b + bytes)` contains `ptr` (the `MFEM_ASSERT(!Known(..))`
at its head is debug-only).  Returns the owning base or `none` (null). -/
def mfem.IsAlias : List (Int × mfem.mm.memory) → Int → Option Int
  | [], _ => none
  | (b, m) :: rest, ptr =>
    if b > ptr then mfem.IsAlias rest ptr
    else if ptr < b + (m.bytes : Int) then some b
    else mfem.IsAlias rest ptr

/-- Static `InsertAlias(maps, base, ptr)` of mm.cpp: look up the owning
record (`at` throws if absent), build a fresh alias struct with
`offset = ptr - base`, emplace it in the alias map keyed by the interior
pointer, and push the struct onto the owner's back-reference list (the
`MFEM_DEBUG_MM` block is debug-only and not modelled). -/
def mfem.InsertAlias (s : mfem.MMState) (base ptr : Int) :
    Except String (Int × mfem.MMState) :=
  match mfem.findA s.maps.memories base with
  | none => .error "InsertAlias: maps.memories.at"
  | some mem =>
    let offset : Int := ptr - base
    let a : mfem.mm.alias := { addr := s.nextAliasAddr, mem := base, offset := offset }
    let s1 : mfem.MMState :=
      { s with
        maps :=
          { memories := mfem.replaceA s.maps.memories base
              { mem with aliases := mem.aliases ++ [s.nextAliasAddr] },
            aliases := mfem.emplaceA s.maps.aliases (mfem.AliasKey.userPtr ptr) a },
        nextAliasAddr := s.nextAliasAddr + 1 }
    .ok (ptr, s1)

/-- Static `Alias(maps, ptr)` of mm.cpp: hit the alias cache first; on a
miss run the linear `IsAlias` scan and cache a new record on success. -/
def mfem.Alias (s : mfem.MMState) (ptr : Int) : Except String (Bool × mfem.MMState) :=
  if (mfem.findA s.maps.aliases (mfem.AliasKey.userPtr ptr)).isSome then .ok (true, s)
  else
    match mfem.IsAlias s.maps.memories ptr with
    | none => .ok (false, s)
    | some base =>
      match mfem.InsertAlias s base ptr with
      | .error e => .error e
      | .ok (_, s1) => .ok (true, s1)

/-- Method `mm::Alias(ptr)`. -/
def mfem.mm.Alias (s : mfem.MMState) (ptr : Int) : Except String (Bool × mfem.MMState) :=
  mfem.Alias s ptr

/-- Method `mm::Insert(ptr, bytes)`: pass-through when the manager is
globally off; fatal on duplicate registration; otherwise emplace a fresh
record.  The `memory(ptr, bytes)` constructor lives in okina.hpp (not
under src/); modelled from the spec: initial state HostValid, no device
pointer, no aliases. -/
def mfem.mm.Insert (cfg : mfem.DevCfg) (s : mfem.MMState) (ptr : Int) (bytes : Nat) :
    Except String (Int × mfem.MMState) :=
  if !cfg.usingMM then .ok (ptr, s)
  else if mfem.Known s.maps ptr then .error "Trying to add an already present address!"
  else
    .ok (ptr,
      { s with
        maps :=
          { s.maps with
            memories := mfem.emplaceA s.maps.memories ptr
              { h_ptr := ptr, bytes := bytes, host := true, d_ptr := none, aliases := [] } } })

/-- Method `mm::Erase(ptr)`: pass-through when the manager is globally
off; fatal on an unknown pointer; otherwise, for each alias struct
back-referenced by the record, call `maps.aliases.erase(alias)` — the
argument is the alias struct's own heap address implicitly converted to
the `const void*` key type, hence key `AliasKey.recAddr` — then clear the
back-reference list and erase the record itself.  No backend release of
the device allocation appears anywhere in mm.cpp. -/
def mfem.mm.Erase (cfg : mfem.DevCfg) (s : mfem.MMState) (ptr : Int) :
    Except String (Int × mfem.MMState) :=
  if !cfg.usingMM then .ok (ptr, s)
  else if !(mfem.Known s.maps ptr) then .error "Trying to erase an unknown pointer!"
  else
    match mfem.findA s.maps.memories ptr with
    | none => .error "Erase: maps.memories.at"
    | some mem =>
      let aliases1 := mem.aliases.foldl
        (fun acc a => mfem.eraseA acc (mfem.AliasKey.recAddr a)) s.maps.aliases
      let memories1 := mfem.replaceA s.maps.memories ptr { mem with aliases := [] }
      .ok (ptr,
        { s with maps := { memories := mfem.eraseA memories1 ptr, aliases := aliases1 } })

/-- Static `MmDeviceIniFilter()` of mm.cpp: true (caller returns the raw
pointer / does nothing) when the manager is off, the device is disabled,
or the device was never enabled; fatal under OCCA; false otherwise. -/
def mfem.MmDeviceIniFilter (cfg : mfem.DevCfg) : Except String Bool :=
  if !cfg.usingMM then .ok true
  else if cfg.deviceDisabled then .ok true
  else if !cfg.hasBeenEnabled then .ok true
  else if cfg.usingOcca then .error "Device::UsingOcca()"
  else .ok false

/-- Static `PtrKnown(maps, ptr)` of mm.cpp: the four-way residency
decision for a known base.  Reads `host`, `bytes` from the record and
`gpu = Device::UsingDevice()`; returns the host pointer unchanged when
HostValid and not on gpu; fatal on a zero-sized record past that point;
lazily allocates the device mirror; returns the device pointer when
DeviceValid on gpu; fatal on a null host pointer past that point; pulls
(device to host, full buffer) when DeviceValid off gpu; otherwise pushes
(host to device, full buffer). -/
def mfem.PtrKnown (cfg : mfem.DevCfg) (s : mfem.MMState) (ptr : Int) :
    Except String (Int × mfem.MMState) :=
  match mfem.findA s.maps.memories ptr with
  | none => .error "PtrKnown: maps.memories.at"
  | some base =>
    let host := base.host
    let gpu := cfg.usingDevice
    if host && !gpu then .ok (ptr, s)
    else if base.bytes == 0 then .error "PtrKnown bytes==0"
    else
      let aStep : mfem.MMState × mfem.mm.memory :=
        match base.d_ptr with
        | some _ => (s, base)
        | none =>
          let ar := mfem.CuMemAlloc s base.bytes
          let b1 := { base with d_ptr := some ar.1 }
          (mfem.setMem ar.2 ptr b1, b1)
      match aStep.2.d_ptr with
      | none => .error "PtrKnown !base->d_ptr"
      | some d =>
        if !host && gpu then .ok (d, aStep.1)
        else if ptr == 0 then .error "PtrKnown !ptr"
        else if !host && !gpu then
          let s1 := mfem.CuMemcpyDtoH aStep.1 ptr d base.bytes
          .ok (ptr, mfem.setMem s1 ptr { aStep.2 with host := true })
        else if !(host && gpu) then .error "PtrKnown !(host && gpu)"
        else
          let s1 := mfem.CuMemcpyHtoD aStep.1 d ptr base.bytes
          .ok (d, mfem.setMem s1 ptr { aStep.2 with host := false })

/-- Static `PtrAlias(maps, ptr)` of mm.cpp: the same four-way decision
run on the alias's owning record (`alias->mem`), with the returned device
pointer shifted by the alias offset; copies always move the entire owning
buffer.  Dereferencing a dangling `alias->mem` (owner erased) is
undefined behaviour in C++ and is modelled as an error.  The two
`assert`s at its head are debug-only and not modelled. -/
def mfem.PtrAlias (cfg : mfem.DevCfg) (s : mfem.MMState) (ptr : Int) :
    Except String (Int × mfem.MMState) :=
  let gpu := cfg.usingDevice
  match mfem.findA s.maps.aliases (mfem.AliasKey.userPtr ptr) with
  | none => .error "PtrAlias: maps.aliases.at"
  | some a =>
    match mfem.findA s.maps.memories a.mem with
    | none => .error "PtrAlias: dangling alias->mem"
    | some base =>
      let host := base.host
      if host && !gpu then .ok (ptr, s)
      else if base.bytes == 0 then .error "PtrAlias bytes==0"
      else
        let aStep : mfem.MMState × mfem.mm.memory :=
          match base.d_ptr with
          | some _ => (s, base)
          | none =>
            let ar := mfem.CuMemAlloc s base.bytes
            let b1 := { base with d_ptr := some ar.1 }
            (mfem.setMem ar.2 a.mem b1, b1)
        match aStep.2.d_ptr with
        | none => .error "PtrAlias !base->d_ptr"
        | some d =>
          let a_ptr := d + a.offset
          if !host && gpu then .ok (a_ptr, aStep.1)
          else if base.h_ptr == 0 then .error "PtrAlias !base->h_ptr"
          else if !host && !gpu then
            let s1 := mfem.CuMemcpyDtoH aStep.1 base.h_ptr d base.bytes
            .ok (ptr, mfem.setMem s1 a.mem { aStep.2 with host := true })
          else if !(host && gpu) then .error "PtrAlias !(host && gpu)"
          else
            let s1 := mfem.CuMemcpyHtoD aStep.1 d base.h_ptr base.bytes
            .ok (a_ptr, mfem.setMem s1 a.mem { aStep.2 with host := false })

/-- Method `mm::Ptr(ptr)` — the spec's `ResolvePointer`: pass-through
under the initialization filter; dispatch to `PtrKnown` for a known base,
to `PtrAlias` for a (possibly freshly cached) alias; fatal for an unknown
pointer while the device is in use; otherwise the raw pointer. -/
def mfem.mm.Ptr (cfg : mfem.DevCfg) (s : mfem.MMState) (ptr : Int) :
    Except String (Int × mfem.MMState) :=
  match mfem.MmDeviceIniFilter cfg with
  | .error e => .error e
  | .ok true => .ok (ptr, s)
  | .ok false =>
    if mfem.Known s.maps ptr then mfem.PtrKnown cfg s ptr
    else
      match mfem.Alias s ptr with
      | .error e => .error e
      | .ok (true, s1) => mfem.PtrAlias cfg s1 ptr
      | .ok (false, s1) =>
        if cfg.usingDevice then .error "Trying to use unknown pointer on the DEVICE!"
        else .ok (ptr, s1)

/-- Static `PushKnown(maps, ptr, bytes)` of mm.cpp: allocate the mirror if
absent (full registered size), then copy host to device — `bytes` bytes,
or the full size when `bytes == 0`.  The residency flag is not touched. -/
def mfem.PushKnown (s : mfem.MMState) (ptr : Int) (bytes : Nat) :
    Except String (Unit × mfem.MMState) :=
  match mfem.findA s.maps.memories ptr with
  | none => .error "PushKnown: maps.memories.at"
  | some base =>
    let aStep : mfem.MMState × mfem.mm.memory :=
      match base.d_ptr with
      | some _ => (s, base)
      | none =>
        let ar := mfem.CuMemAlloc s base.bytes
        let b1 := { base with d_ptr := some ar.1 }
        (mfem.setMem ar.2 ptr b1, b1)
    .ok ((), mfem.CuMemcpyHtoD aStep.1 (aStep.2.d_ptr.getD 0) ptr
      (if bytes == 0 then base.bytes else bytes))

/-- Static `PushAlias(maps, ptr, bytes)` of mm.cpp: copy `bytes` bytes
from the interior pointer to `alias->mem->d_ptr + offset`.  No allocation
and no null check: a null `d_ptr` is dereferenced as-is (address 0). -/
def mfem.PushAlias (s : mfem.MMState) (ptr : Int) (bytes : Nat) :
    Except String (Unit × mfem.MMState) :=
  match mfem.findA s.maps.aliases (mfem.AliasKey.userPtr ptr) with
  | none => .error "PushAlias: maps.aliases.at"
  | some a =>
    match mfem.findA s.maps.memories a.mem with
    | none => .error "PushAlias: dangling alias->mem"
    | some base =>
      .ok ((), mfem.CuMemcpyHtoD s ((base.d_ptr.getD 0) + a.offset) ptr bytes)

/-- Method `mm::Push(ptr, bytes)`: fatal on zero bytes, then the filter,
then dispatch as in `mm::Ptr`, with a fatal error for an unknown pointer
while the device is in use. -/
def mfem.mm.Push (cfg : mfem.DevCfg) (s : mfem.MMState) (ptr : Int) (bytes : Nat) :
    Except String (Unit × mfem.MMState) :=
  if bytes == 0 then .error "Push bytes==0"
  else
    match mfem.MmDeviceIniFilter cfg with
    | .error e => .error e
    | .ok true => .ok ((), s)
    | .ok false =>
      if mfem.Known s.maps ptr then mfem.PushKnown s ptr bytes
      else
        match mfem.Alias s ptr with
        | .error e => .error e
        | .ok (true, s1) => mfem.PushAlias s1 ptr bytes
        | .ok (false, s1) =>
          if cfg.usingDevice then .error "Unknown pointer to push to!"
          else .ok ((), s1)

/-- Static `PullKnown(maps, ptr, bytes)` of mm.cpp: a no-op when the
record is HostValid; otherwise copy device to host — `bytes` bytes, or
the full size when `bytes == 0` (the two `assert`s are debug-only).  The
residency flag is not touched. -/
def mfem.PullKnown (s : mfem.MMState) (ptr : Int) (bytes : Nat) :
    Except String (Unit × mfem.MMState) :=
  match mfem.findA s.maps.memories ptr with
  | none => .error "PullKnown: maps.memories.at"
  | some base =>
    if base.host then .ok ((), s)
    else
      .ok ((), mfem.CuMemcpyDtoH s base.h_ptr (base.d_ptr.getD 0)
        (if bytes == 0 then base.bytes else bytes))

/-- Static `PullAlias(maps, ptr, bytes)` of mm.cpp: a no-op when the
owner is HostValid; fatal on a null interior pointer or a null owner
`d_ptr`; otherwise copy `bytes` bytes from `d_ptr + offset` back to the
interior pointer. -/
def mfem.PullAlias (s : mfem.MMState) (ptr : Int) (bytes : Nat) :
    Except String (Unit × mfem.MMState) :=
  match mfem.findA s.maps.aliases (mfem.AliasKey.userPtr ptr) with
  | none => .error "PullAlias: maps.aliases.at"
  | some a =>
    match mfem.findA s.maps.memories a.mem with
    | none => .error "PullAlias: dangling alias->mem"
    | some base =>
      if base.host then .ok ((), s)
      else if ptr == 0 then .error "PullAlias !ptr"
      else
        match base.d_ptr with
        | none => .error "PullAlias !alias->mem->d_ptr"
        | some d => .ok ((), mfem.CuMemcpyDtoH s ptr (d + a.offset) bytes)

/-- Method `mm::Pull(ptr, bytes)`: the filter, then dispatch as in
`mm::Ptr`; note there is no `bytes == 0` check, unlike `mm::Push`. -/
def mfem.mm.Pull (cfg : mfem.DevCfg) (s : mfem.MMState) (ptr : Int) (bytes : Nat) :
    Except String (Unit × mfem.MMState) :=
  match mfem.MmDeviceIniFilter cfg with
  | .error e => .error e
  | .ok true => .ok ((), s)
  | .ok false =>
    if mfem.Known s.maps ptr then mfem.PullKnown s ptr bytes
    else
      match mfem.Alias s ptr with
      | .error e => .error e
      | .ok (true, s1) => mfem.PullAlias s1 ptr bytes
      | .ok (false, s1) =>
        if cfg.usingDevice then .error "Unknown pointer to pull from!"
        else .ok ((), s1)

/-- Method `mm::memcpy(dst, src, bytes, async)` — the spec's `Memcpy`:
resolve both pointers first (each resolution may allocate, copy and flip
residency), then return `dst` on zero bytes, do a host `std::memcpy` when
`Device::UsingHost()`, and a device-to-device copy (async per the flag)
otherwise. -/
def mfem.mm.memcpy (cfg : mfem.DevCfg) (s : mfem.MMState) (dst src : Int)
    (bytes : Nat) (async : Bool) : Except String (Int × mfem.MMState) :=
  match mfem.mm.Ptr cfg s dst with
  | .error e => .error e
  | .ok (d_dst, s1) =>
    match mfem.mm.Ptr cfg s1 src with
    | .error e => .error e
    | .ok (d_src, s2) =>
      if bytes == 0 then .ok (dst, s2)
      else if cfg.usingHost then .ok (dst, mfem.hostMemcpy s2 dst src bytes)
      else if !async then .ok (d_dst, mfem.CuMemcpyDtoD s2 d_dst d_src bytes false)
      else .ok (d_dst, mfem.CuMemcpyDtoD s2 d_dst d_src bytes true)

/-- A device-active configuration: manager on, device enabled and in use. -/
def mfem.cfgOn : mfem.DevCfg :=
  { usingMM := true, hasBeenEnabled := true, deviceDisabled := false,
    usingDevice := true, usingHost := false, usingOcca := false }

/-- Manager on, device enabled, but execution staying on the host. -/
def mfem.cfgHostExec : mfem.DevCfg :=
  { usingMM := true, hasBeenEnabled := true, deviceDisabled := false,
    usingDevice := false, usingHost := true, usingOcca := false }

/-- Manager globally disabled. -/
def mfem.cfgNoMM : mfem.DevCfg :=
  { usingMM := false, hasBeenEnabled := false, deviceDisabled := false,
    usingDevice := false, usingHost := true, usingOcca := false }

/-- The empty initial state. -/
def mfem.st0 : mfem.MMState :=
  { maps := { memories := [], aliases := [] }, nextDev := 5000,
    nextAliasAddr := 0, deviceAllocs := [], copies := [] }

/-- Lookup after an in-place value replacement at the same key. -/
theorem mfem.findA_replaceA_self {κ α : Type} [DecidableEq κ] (l : List (κ × α)) (k : κ) (v : α) :
    mfem.findA (mfem.replaceA l k v) k = (mfem.findA l k).map (fun _ => v) := by
  induction l with
  | nil => simp [mfem.findA, mfem.replaceA]
  | cons kv rest ih =>
    by_cases h : kv.1 = k
    · simp [mfem.findA, mfem.replaceA, h]
    · simp [mfem.findA, mfem.replaceA, h, ih]

/-- Lookup at a different key is unchanged by a replacement. -/
theorem mfem.findA_replaceA_ne {κ α : Type} [DecidableEq κ] (l : List (κ × α)) (k k1 : κ) (v : α)
    (h : k1 ≠ k) : mfem.findA (mfem.replaceA l k v) k1 = mfem.findA l k1 := by
  induction l with
  | nil => simp [mfem.findA, mfem.replaceA]
  | cons kv rest ih =>
    by_cases hk : kv.1 = k
    · have hne : kv.1 ≠ k1 := by
        rw [hk]
        exact fun hh => h hh.symm
      simp [mfem.findA, mfem.replaceA, hk, hne, Ne.symm h]
    · by_cases hk1 : kv.1 = k1
      · simp [mfem.findA, mfem.replaceA, hk, hk1, h]
      · simp [mfem.findA, mfem.replaceA, hk, hk1, ih]

/-- A replacement never changes which keys are present. -/
theorem mfem.isSome_findA_replaceA {κ α : Type} [DecidableEq κ] (l : List (κ × α)) (k k1 : κ)
    (v : α) : (mfem.findA (mfem.replaceA l k v) k1).isSome = (mfem.findA l k1).isSome := by
  by_cases h : k1 = k
  · subst h
    rw [mfem.findA_replaceA_self]
    cases mfem.findA l k1 <;> simp
  · rw [mfem.findA_replaceA_ne l k k1 v h]

/-- Appending a fresh binding makes it visible when the key was absent. -/
theorem mfem.findA_append_self {κ α : Type} [DecidableEq κ] (l : List (κ × α)) (k : κ) (v : α)
    (h : mfem.findA l k = none) : mfem.findA (l ++ [(k, v)]) k = some v := by
  induction l with
  | nil => simp [mfem.findA]
  | cons kv rest ih =>
    by_cases hk : kv.1 = k
    · simp [mfem.findA, hk] at h
    · simp [mfem.findA, hk] at h ⊢
      exact ih h

/-- Erasing a key removes it. -/
theorem mfem.findA_eraseA_self {κ α : Type} [DecidableEq κ] (l : List (κ × α)) (k : κ) :
    mfem.findA (mfem.eraseA l k) k = none := by
  induction l with
  | nil => simp [mfem.findA, mfem.eraseA]
  | cons kv rest ih =>
    by_cases hk : kv.1 = k
    · simpa [mfem.eraseA, hk] using ih
    · simpa [mfem.eraseA, mfem.findA, hk] using ih

/-- A successful lookup is list membership. -/
theorem mfem.findA_some_mem {κ α : Type} [DecidableEq κ] {l : List (κ × α)} {k : κ} {v : α}
    (h : mfem.findA l k = some v) : (k, v) ∈ l := by
  induction l with
  | nil => simp [mfem.findA] at h
  | cons kv rest ih =>
    by_cases hk : kv.1 = k
    · simp [mfem.findA, hk] at h
      have hkv : kv = (k, v) := by
        obtain ⟨a, b⟩ := kv
        simp_all
      rw [hkv]
      exact List.mem_cons_self _ _
    · simp [mfem.findA, hk] at h
      exact List.mem_cons_of_mem _ (ih h)

/-- A single HostValid record of 8 bytes at address 1000, no mirror yet. -/
def mfem.memHost8 : mfem.mm.memory :=
  { h_ptr := 1000, bytes := 8, host := true, d_ptr := none, aliases := [] }

/-- State holding only the `memHost8` record. -/
def mfem.stHost8 : mfem.MMState :=
  { maps := { memories := [(1000, mfem.memHost8)], aliases := [] },
    nextDev := 5000, nextAliasAddr := 0, deviceAllocs := [], copies := [] }

/-- A single DeviceValid record of 8 bytes at 1000 with mirror at 5000. -/
def mfem.memDev8 : mfem.mm.memory :=
  { h_ptr := 1000, bytes := 8, host := false, d_ptr := some 5000, aliases := [] }

/-- State holding only the `memDev8` record, its mirror allocated. -/
def mfem.stDev8 : mfem.MMState :=
  { maps := { memories := [(1000, mfem.memDev8)], aliases := [] },
    nextDev := 6000, nextAliasAddr := 0, deviceAllocs := [5000], copies := [] }

/-- C10: when the memory manager is globally disabled, Insert and Erase
both return the pointer unchanged with the whole state untouched, raising
neither the duplicate-registration nor the unknown-pointer fatal error —
this holds for every state, in particular for a state already holding the
pointer (double Insert) and for one that never registered it (Erase of a
never-registered pointer). -/
theorem c10_disabled_insert_erase_passthrough (cfg : mfem.DevCfg)
    (h : cfg.usingMM = false) (s : mfem.MMState) (ptr : Int) (bytes : Nat) :
    mfem.mm.Insert cfg s ptr bytes = .ok (ptr, s) ∧
    mfem.mm.Erase cfg s ptr = .ok (ptr, s) := by
  constructor <;> simp [mfem.mm.Insert, mfem.mm.Erase, h]

/-- Witness for C10 at a concrete disabled configuration and state. -/
theorem c10_witness :
    mfem.cfgNoMM.usingMM = false ∧
    (mfem.mm.Insert mfem.cfgNoMM mfem.st0 1000 8 = .ok (1000, mfem.st0) ∧
     mfem.mm.Erase mfem.cfgNoMM mfem.st0 1000 = .ok (1000, mfem.st0)) :=
  ⟨rfl, c10_disabled_insert_erase_passthrough mfem.cfgNoMM rfl mfem.st0 1000 8⟩

/-- C2: the code violates the claim.  After `Insert(1000, 100)`, caching
the interior pointer 1040 via ResolveAlias, and `Erase(1000)`, the
interior-pointer map still contains the entry for 1040 (first component
`true`), even though the base record is gone (second component `false`),
and a later ResolveAlias on 1040 still hits the stale cached record
(third component `.ok true`).  `mm::Erase` passes the alias struct's own
address — not the interior-pointer key — to `maps.aliases.erase`, so the
loop never removes anything. -/
theorem c2_erase_leaves_stale_alias :
    ((mfem.mm.Insert mfem.cfgOn mfem.st0 1000 100 >>= fun r =>
      mfem.mm.Alias r.2 1040 >>= fun r2 =>
      mfem.mm.Erase mfem.cfgOn r2.2 1000).map (fun r3 =>
        ((mfem.findA r3.2.maps.aliases (mfem.AliasKey.userPtr 1040)).isSome,
         mfem.Known r3.2.maps 1000,
         (mfem.mm.Alias r3.2 1040).map (fun rb => rb.1))))
      = .ok (true, false, .ok true) := by rfl

/-- C3 counterexample: Insert, Push (which lazily allocates the device
mirror at address 5000), then Erase: the erased record's device
allocation is still live afterwards, refuting the claim that Erase
releases it — no backend release is ever invoked by mm::Erase. -/
theorem c3_erase_never_releases_cex :
    (mfem.mm.Insert mfem.cfgOn mfem.st0 1000 8 >>= fun r =>
     mfem.mm.Push mfem.cfgOn r.2 1000 8 >>= fun r2 =>
     mfem.mm.Erase mfem.cfgOn r2.2 1000).map (fun r3 => r3.2.deviceAllocs)
      = .ok [5000] ∧ ([(5000 : Int)] : List Int) ≠ [] :=
  ⟨rfl, by simp⟩

/-- C3 amended: for a registered pointer, Erase removes the Residency
Record from the Ledger but leaves the set of live device-side allocations
untouched (it never releases the device mirror) and performs no copy. -/
theorem c3_amended_erase_keeps_device_alloc (cfg : mfem.DevCfg) (s : mfem.MMState)
    (ptr : Int) (hmm : cfg.usingMM = true) (hk : mfem.Known s.maps ptr = true) :
    ∃ s1, mfem.mm.Erase cfg s ptr = .ok (ptr, s1) ∧
      s1.deviceAllocs = s.deviceAllocs ∧
      mfem.Known s1.maps ptr = false ∧
      s1.copies = s.copies := by
  cases hm : mfem.findA s.maps.memories ptr with
  | none => rw [mfem.Known, hm] at hk; simp at hk
  | some mem =>
    have he : mfem.mm.Erase cfg s ptr = .ok (ptr,
        { s with maps :=
            { memories :=
                mfem.eraseA (mfem.replaceA s.maps.memories ptr { mem with aliases := [] }) ptr,
              aliases := mem.aliases.foldl
                (fun acc a => mfem.eraseA acc (mfem.AliasKey.recAddr a)) s.maps.aliases } }) := by
      simp [mfem.mm.Erase, hmm, hk, hm]
    exact ⟨_, he, rfl, by simp [mfem.Known, mfem.findA_eraseA_self], rfl⟩

/-- Witness for C3's amended statement on a concrete registered record. -/
theorem c3_amended_witness :
    mfem.cfgOn.usingMM = true ∧ mfem.Known mfem.stDev8.maps 1000 = true ∧
    (∃ s1, mfem.mm.Erase mfem.cfgOn mfem.stDev8 1000 = .ok (1000, s1) ∧
      s1.deviceAllocs = mfem.stDev8.deviceAllocs ∧
      mfem.Known s1.maps 1000 = false ∧
      s1.copies = mfem.stDev8.copies) :=
  ⟨rfl, rfl, c3_amended_erase_keeps_device_alloc mfem.cfgOn mfem.stDev8 1000 rfl rfl⟩

/-- C4 counterexample: pushing 4 bytes of a HostValid record succeeds and
copies, but the record's residency flag is still `true` (HostValid)
afterwards — `PushKnown` never sets the state to DeviceValid, refuting
the claim's final conjunct. -/
theorem c4_push_leaves_hostvalid_cex :
    (mfem.mm.Push mfem.cfgOn mfem.stHost8 1000 4).map
      (fun r => (mfem.findA r.2.maps.memories 1000).map (fun m => m.host))
      = .ok (some true) ∧
    (Except.ok (some true) : Except String (Option Bool)) ≠ .ok (some false) :=
  ⟨rfl, by simp⟩

/-- C4 amended: under an active device pipeline, for a registered pointer
and nonzero `bytes`, Push performs exactly one host-to-device copy of
`bytes` bytes regardless of the record's residency state, allocating the
device mirror (at the full registered size) first when absent — but it
leaves the residency state unchanged; it does not set DeviceValid. -/
theorem c4_amended_push_copies_but_keeps_state (cfg : mfem.DevCfg) (s : mfem.MMState)
    (ptr : Int) (bytes : Nat) (mem : mfem.mm.memory)
    (hf : mfem.MmDeviceIniFilter cfg = .ok false)
    (hm : mfem.findA s.maps.memories ptr = some mem)
    (hb : bytes ≠ 0) :
    ∃ d s1, mfem.mm.Push cfg s ptr bytes = .ok ((), s1) ∧
      mfem.findA s1.maps.memories ptr = some { mem with d_ptr := some d } ∧
      ({ mem with d_ptr := some d } : mfem.mm.memory).host = mem.host ∧
      s1.copies = s.copies ++ [mfem.CopyEvt.htod d ptr bytes] ∧
      s1.maps.aliases = s.maps.aliases ∧
      (∀ d0, mem.d_ptr = some d0 → d = d0 ∧ s1.deviceAllocs = s.deviceAllocs) := by
  have hkn : mfem.Known s.maps ptr = true := by simp [mfem.Known, hm]
  obtain ⟨mh, mb, mhost, mdp, mal⟩ := mem
  cases mdp with
  | some d0 =>
    have he : mfem.mm.Push cfg s ptr bytes = .ok ((), mfem.CuMemcpyHtoD s d0 ptr bytes) := by
      simp [mfem.mm.Push, hb, hf, hkn, mfem.PushKnown, hm]
    refine ⟨d0, _, he, ?_, rfl, ?_, rfl, ?_⟩
    · simpa [mfem.CuMemcpyHtoD] using hm
    · simp [mfem.CuMemcpyHtoD]
    · intro d1 hd1
      simp at hd1
      simp [hd1, mfem.CuMemcpyHtoD]
  | none =>
    have he : mfem.mm.Push cfg s ptr bytes = .ok ((),
        mfem.CuMemcpyHtoD
          (mfem.setMem (mfem.CuMemAlloc s mb).2 ptr
            { h_ptr := mh, bytes := mb, host := mhost, d_ptr := some s.nextDev, aliases := mal })
          s.nextDev ptr bytes) := by
      simp [mfem.mm.Push, hb, hf, hkn, mfem.PushKnown, hm, mfem.CuMemAlloc]
    refine ⟨s.nextDev, _, he, ?_, rfl, ?_, ?_, ?_⟩
    · simp [mfem.CuMemcpyHtoD, mfem.setMem, mfem.CuMemAlloc]
      rw [mfem.findA_replaceA_self, hm]
      rfl
    · simp [mfem.CuMemcpyHtoD, mfem.setMem, mfem.CuMemAlloc]
    · simp [mfem.CuMemcpyHtoD, mfem.setMem, mfem.CuMemAlloc]
    · intro d1 hd1
      simp at hd1

/-- Witness for C4's amended statement: push 4 of 8 bytes of a HostValid
record with no mirror under the device-active configuration. -/
theorem c4_amended_witness :
    mfem.MmDeviceIniFilter mfem.cfgOn = .ok false ∧
    mfem.findA mfem.stHost8.maps.memories 1000 = some mfem.memHost8 ∧ (4 : Nat) ≠ 0 ∧
    (∃ d s1, mfem.mm.Push mfem.cfgOn mfem.stHost8 1000 4 = .ok ((), s1) ∧
      mfem.findA s1.maps.memories 1000 = some { mfem.memHost8 with d_ptr := some d } ∧
      ({ mfem.memHost8 with d_ptr := some d } : mfem.mm.memory).host = mfem.memHost8.host ∧
      s1.copies = mfem.stHost8.copies ++ [mfem.CopyEvt.htod d 1000 4] ∧
      s1.maps.aliases = mfem.stHost8.maps.aliases ∧
      (∀ d0, mfem.memHost8.d_ptr = some d0 → d = d0 ∧ s1.deviceAllocs = mfem.stHost8.deviceAllocs)) :=
  ⟨rfl, rfl, by decide,
   c4_amended_push_copies_but_keeps_state mfem.cfgOn mfem.stHost8 1000 4 mfem.memHost8
     rfl rfl (by decide)⟩

/-- C5 counterexample: `Pull(1000, 0)` on a DeviceValid record does not
fail fatally — it succeeds and copies the full registered size (8 bytes)
device-to-host; `mm::Pull` has no `bytes == 0` check, unlike `mm::Push`. -/
theorem c5_pull_zero_not_fatal_cex :
    mfem.mm.Pull mfem.cfgOn mfem.stDev8 1000 0 =
      .ok ((), { mfem.stDev8 with copies := [mfem.CopyEvt.dtoh 1000 5000 8] }) := by rfl

/-- C5 amended: Pull has no zero-byte failure check.  For a registered
HostValid record it is a no-op for every `bytes` (no copy, state
untouched); for a DeviceValid record, `Pull(ptr, 0)` succeeds and copies
the full registered size back to the host pointer. -/
theorem c5_amended_pull_zero_and_noop (cfg : mfem.DevCfg) (s : mfem.MMState)
    (ptr : Int) (mem : mfem.mm.memory)
    (hf : mfem.MmDeviceIniFilter cfg = .ok false)
    (hm : mfem.findA s.maps.memories ptr = some mem) :
    (mem.host = true → ∀ bytes, mfem.mm.Pull cfg s ptr bytes = .ok ((), s)) ∧
    (∀ d, mem.host = false → mem.d_ptr = some d →
      mfem.mm.Pull cfg s ptr 0 =
        .ok ((), { s with copies := s.copies ++ [mfem.CopyEvt.dtoh mem.h_ptr d mem.bytes] })) := by
  have hkn : mfem.Known s.maps ptr = true := by simp [mfem.Known, hm]
  constructor
  · intro hh bytes
    simp [mfem.mm.Pull, hf, hkn, mfem.PullKnown, hm, hh]
  · intro d hh hd
    simp [mfem.mm.Pull, hf, hkn, mfem.PullKnown, hm, hh, hd, mfem.CuMemcpyDtoH]

/-- Witness for C5's amended statement on a concrete DeviceValid record. -/
theorem c5_amended_witness :
    mfem.MmDeviceIniFilter mfem.cfgOn = .ok false ∧
    mfem.findA mfem.stDev8.maps.memories 1000 = some mfem.memDev8 ∧
    ((mfem.memDev8.host = true → ∀ bytes, mfem.mm.Pull mfem.cfgOn mfem.stDev8 1000 bytes = .ok ((), mfem.stDev8)) ∧
     (∀ d, mfem.memDev8.host = false → mfem.memDev8.d_ptr = some d →
       mfem.mm.Pull mfem.cfgOn mfem.stDev8 1000 0 =
         .ok ((), { mfem.stDev8 with
                    copies := mfem.stDev8.copies ++ [mfem.CopyEvt.dtoh mfem.memDev8.h_ptr d mfem.memDev8.bytes] }))) :=
  ⟨rfl, rfl, c5_amended_pull_zero_and_noop mfem.cfgOn mfem.stDev8 1000 mfem.memDev8 rfl rfl⟩

/-- The whole accelerator pipeline is in use: manager on, device enabled,
not disabled, no OCCA, and the device selected for execution — the
conjunction under which `mm::Ptr` reaches its device-side dispatch. -/
def mfem.acceleratorActive (cfg : mfem.DevCfg) : Bool :=
  cfg.usingMM && !cfg.deviceDisabled && cfg.hasBeenEnabled && !cfg.usingOcca && cfg.usingDevice

/-- C6: for a pointer that is neither a known base, nor cached as an
alias, nor inside any registered region, ResolvePointer fails fatally
exactly when the accelerator is active; otherwise it returns the pointer
unchanged with the state (hence the Ledger) untouched.  In the fatal case
`mfem_error` aborts before any mutation, so no partial state survives. -/
theorem c6_unknown_pointer_fatal_iff_active (cfg : mfem.DevCfg) (s : mfem.MMState) (ptr : Int)
    (hocca : cfg.usingOcca = false)
    (hk : mfem.Known s.maps ptr = false)
    (hc : mfem.findA s.maps.aliases (mfem.AliasKey.userPtr ptr) = none)
    (hs : mfem.IsAlias s.maps.memories ptr = none) :
    (mfem.acceleratorActive cfg = true →
       mfem.mm.Ptr cfg s ptr = .error "Trying to use unknown pointer on the DEVICE!") ∧
    (mfem.acceleratorActive cfg = false → mfem.mm.Ptr cfg s ptr = .ok (ptr, s)) := by
  constructor <;> intro ha <;>
    cases h1 : cfg.usingMM <;> cases h2 : cfg.deviceDisabled <;>
      cases h3 : cfg.hasBeenEnabled <;> cases h4 : cfg.usingDevice <;>
        simp_all [mfem.acceleratorActive, mfem.mm.Ptr, mfem.MmDeviceIniFilter, mfem.Alias]

/-- Witness for C6: the never-registered pointer 7 in the empty state
under the device-active configuration. -/
theorem c6_witness :
    mfem.cfgOn.usingOcca = false ∧ mfem.Known mfem.st0.maps 7 = false ∧
    mfem.findA mfem.st0.maps.aliases (mfem.AliasKey.userPtr 7) = none ∧
    mfem.IsAlias mfem.st0.maps.memories 7 = none ∧
    ((mfem.acceleratorActive mfem.cfgOn = true →
        mfem.mm.Ptr mfem.cfgOn mfem.st0 7 = .error "Trying to use unknown pointer on the DEVICE!") ∧
     (mfem.acceleratorActive mfem.cfgOn = false → mfem.mm.Ptr mfem.cfgOn mfem.st0 7 = .ok (7, mfem.st0))) :=
  ⟨rfl, rfl, rfl, rfl, c6_unknown_pointer_fatal_iff_active mfem.cfgOn mfem.st0 7 rfl rfl rfl rfl⟩

/-- C9 counterexample: a zero-byte Memcpy on a HostValid registered
destination under the device-active configuration returns `dst` (1000)
unchanged, but the resolution of the two pointers performed beforehand
has already executed one host-to-device copy and flipped the record to
DeviceValid — the Ledger is not left as it was, refuting the frame
claim. -/
theorem c9_memcpy_zero_still_mutates_cex :
    (mfem.mm.memcpy mfem.cfgOn mfem.stHost8 1000 1000 0 false).map
      (fun r => (r.1, r.2.copies.length, (mfem.findA r.2.maps.memories 1000).map (fun m => m.host)))
      = .ok (1000, 1, some false) ∧ (1 : Nat) ≠ 0 :=
  ⟨rfl, by simp⟩

/-- C9 amended: a zero-byte Memcpy returns `dst` unchanged and performs
no copy of its own, but only after resolving both pointers through
ResolvePointer; its post-state is exactly the post-state of those two
resolutions (which may have allocated, copied and flipped residency). -/
theorem c9_amended_memcpy_zero_after_resolution (cfg : mfem.DevCfg) (s : mfem.MMState)
    (dst src rd rs2 : Int) (s1 s2 : mfem.MMState) (async : Bool)
    (h1 : mfem.mm.Ptr cfg s dst = .ok (rd, s1))
    (h2 : mfem.mm.Ptr cfg s1 src = .ok (rs2, s2)) :
    mfem.mm.memcpy cfg s dst src 0 async = .ok (dst, s2) := by
  simp [mfem.mm.memcpy, h1, h2]

/-- Witness for C9's amended statement: on a host-execution
configuration the two resolutions are identities, and the zero-byte
Memcpy returns `dst` with the state unchanged. -/
theorem c9_amended_witness :
    mfem.mm.Ptr mfem.cfgHostExec mfem.stHost8 1000 = .ok (1000, mfem.stHost8) ∧
    mfem.mm.memcpy mfem.cfgHostExec mfem.stHost8 1000 1000 0 true = .ok (1000, mfem.stHost8) :=
  ⟨rfl, c9_amended_memcpy_zero_after_resolution mfem.cfgHostExec mfem.stHost8
          1000 1000 1000 1000 mfem.stHost8 mfem.stHost8 true rfl rfl⟩

/-- C1: for a known base under the active device pipeline, ResolvePointer
follows the four-way decision: HostValid and device not in use — host
pointer unchanged, no copy, state untouched; DeviceValid and device in
use — device pointer unchanged, no copy, state untouched; DeviceValid and
device not in use — one device-to-host copy of the full buffer, state
flipped to HostValid, host pointer returned; HostValid and device in
use — device mirror lazily allocated if absent, one host-to-device copy
of the full buffer, state flipped to DeviceValid, device pointer
returned. -/
theorem c1_ptr_known_four_way (cfg : mfem.DevCfg) (s : mfem.MMState) (ptr : Int)
    (mem : mfem.mm.memory)
    (hf : mfem.MmDeviceIniFilter cfg = .ok false)
    (hm : mfem.findA s.maps.memories ptr = some mem)
    (hb : mem.bytes ≠ 0) (hp : ptr ≠ 0) :
    (mem.host = true → cfg.usingDevice = false → mfem.mm.Ptr cfg s ptr = .ok (ptr, s)) ∧
    (∀ d, mem.host = false → cfg.usingDevice = true → mem.d_ptr = some d →
       mfem.mm.Ptr cfg s ptr = .ok (d, s)) ∧
    (∀ d, mem.host = false → cfg.usingDevice = false → mem.d_ptr = some d →
       mfem.mm.Ptr cfg s ptr = .ok (ptr,
         mfem.setMem (mfem.CuMemcpyDtoH s ptr d mem.bytes) ptr { mem with host := true })) ∧
    (mem.host = true → cfg.usingDevice = true →
       ∃ d s1, mfem.mm.Ptr cfg s ptr = .ok (d, s1) ∧
         mfem.findA s1.maps.memories ptr = some { mem with d_ptr := some d, host := false } ∧
         s1.copies = s.copies ++ [mfem.CopyEvt.htod d ptr mem.bytes] ∧
         s1.maps.aliases = s.maps.aliases ∧
         (∀ d0, mem.d_ptr = some d0 → d = d0 ∧ s1.deviceAllocs = s.deviceAllocs)) := by
  have hkn : mfem.Known s.maps ptr = true := by simp [mfem.Known, hm]
  have hdis : mfem.mm.Ptr cfg s ptr = mfem.PtrKnown cfg s ptr := by
    simp [mfem.mm.Ptr, hf, hkn]
  obtain ⟨mh, mb, mhost, mdp, mal⟩ := mem
  simp only at hb
  refine ⟨?_, ?_, ?_, ?_⟩
  · intro hh hg
    simp only at hh
    subst hh
    rw [hdis]
    simp [mfem.PtrKnown, hm, hg]
  · intro d hh hg hd
    simp only at hh hd
    subst hh
    subst hd
    rw [hdis]
    simp [mfem.PtrKnown, hm, hg, hb]
  · intro d hh hg hd
    simp only at hh hd
    subst hh
    subst hd
    rw [hdis]
    simp [mfem.PtrKnown, hm, hg, hb, hp]
  · intro hh hg
    simp only at hh
    subst hh
    rw [hdis]
    cases mdp with
    | some d0 =>
      refine ⟨d0, mfem.setMem (mfem.CuMemcpyHtoD s d0 ptr mb) ptr
          { h_ptr := mh, bytes := mb, host := false, d_ptr := some d0, aliases := mal },
        ?_, ?_, ?_, ?_, ?_⟩
      · simp [mfem.PtrKnown, hm, hg, hb, hp, mfem.setMem, mfem.CuMemcpyHtoD]
      · simp only [mfem.setMem, mfem.CuMemcpyHtoD]
        rw [mfem.findA_replaceA_self, hm]
        rfl
      · simp [mfem.setMem, mfem.CuMemcpyHtoD]
      · simp [mfem.setMem, mfem.CuMemcpyHtoD]
      · intro d1 hd1
        simp only [Option.some.injEq] at hd1
        subst hd1
        exact ⟨rfl, rfl⟩
    | none =>
      refine ⟨s.nextDev, mfem.setMem
          (mfem.CuMemcpyHtoD
            (mfem.setMem (mfem.CuMemAlloc s mb).2 ptr
              { h_ptr := mh, bytes := mb, host := true, d_ptr := some s.nextDev, aliases := mal })
            s.nextDev ptr mb)
          ptr { h_ptr := mh, bytes := mb, host := false, d_ptr := some s.nextDev, aliases := mal },
        ?_, ?_, ?_, ?_, ?_⟩
      · simp [mfem.PtrKnown, hm, hg, hb, hp, mfem.CuMemAlloc, mfem.setMem, mfem.CuMemcpyHtoD]
      · simp only [mfem.setMem, mfem.CuMemcpyHtoD, mfem.CuMemAlloc]
        rw [mfem.findA_replaceA_self]
        rw [mfem.findA_replaceA_self, hm]
        rfl
      · simp [mfem.setMem, mfem.CuMemcpyHtoD, mfem.CuMemAlloc]
      · simp [mfem.setMem, mfem.CuMemcpyHtoD, mfem.CuMemAlloc]
      · intro d1 hd1
        simp at hd1

/-- Witness for C1 on the concrete HostValid record of `stHost8` under
the device-active configuration (the fourth, Push, case is the live
one). -/
theorem c1_witness :
    mfem.MmDeviceIniFilter mfem.cfgOn = .ok false ∧
    mfem.findA mfem.stHost8.maps.memories 1000 = some mfem.memHost8 ∧
    mfem.memHost8.bytes ≠ 0 ∧ (1000 : Int) ≠ 0 ∧
    ((mfem.memHost8.host = true → mfem.cfgOn.usingDevice = false →
        mfem.mm.Ptr mfem.cfgOn mfem.stHost8 1000 = .ok (1000, mfem.stHost8)) ∧
     (∀ d, mfem.memHost8.host = false → mfem.cfgOn.usingDevice = true →
        mfem.memHost8.d_ptr = some d →
        mfem.mm.Ptr mfem.cfgOn mfem.stHost8 1000 = .ok (d, mfem.stHost8)) ∧
     (∀ d, mfem.memHost8.host = false → mfem.cfgOn.usingDevice = false →
        mfem.memHost8.d_ptr = some d →
        mfem.mm.Ptr mfem.cfgOn mfem.stHost8 1000 = .ok (1000,
          mfem.setMem (mfem.CuMemcpyDtoH mfem.stHost8 1000 d mfem.memHost8.bytes) 1000
            { mfem.memHost8 with host := true })) ∧
     (mfem.memHost8.host = true → mfem.cfgOn.usingDevice = true →
        ∃ d s1, mfem.mm.Ptr mfem.cfgOn mfem.stHost8 1000 = .ok (d, s1) ∧
          mfem.findA s1.maps.memories 1000 =
            some { mfem.memHost8 with d_ptr := some d, host := false } ∧
          s1.copies = mfem.stHost8.copies ++ [mfem.CopyEvt.htod d 1000 mfem.memHost8.bytes] ∧
          s1.maps.aliases = mfem.stHost8.maps.aliases ∧
          (∀ d0, mfem.memHost8.d_ptr = some d0 → d = d0 ∧
            s1.deviceAllocs = mfem.stHost8.deviceAllocs))) :=
  ⟨rfl, rfl, by decide, by decide,
   c1_ptr_known_four_way mfem.cfgOn mfem.stHost8 1000 mfem.memHost8
     rfl rfl (by decide) (by decide)⟩

/-- Non-overlap of the registered regions, specialised to the address
being resolved: every record other than `base` does not contain `p` in
its half-open byte range (the spec's single-owner invariant). -/
def mfem.soleOwner (ms : List (Int × mfem.mm.memory)) (base p : Int) : Bool :=
  ms.all (fun kv => kv.1 == base ||
    !(decide (kv.1 ≤ p) && decide (p < kv.1 + (kv.2.bytes : Int))))

/-- The claimed Alias Record shape for one cached entry: its key is an
interior user pointer that is not itself a registered base, its owner is
registered, and its offset is strictly between 0 and the owner's size,
with the key lying at owner plus offset. -/
def mfem.aliasEntryOk (ms : List (Int × mfem.mm.memory))
    (kv : mfem.AliasKey × mfem.mm.alias) : Bool :=
  match kv.1 with
  | .recAddr _ => false
  | .userPtr q =>
    !(mfem.findA ms q).isSome &&
    (match mfem.findA ms kv.2.mem with
     | none => false
     | some m => decide (0 < kv.2.offset) && decide (kv.2.offset < (m.bytes : Int)) &&
                 decide (kv.2.mem + kv.2.offset = q))

/-- The claimed invariant over the whole alias map. -/
def mfem.aliasInv (maps : mfem.mm.ledger) : Bool :=
  maps.aliases.all (mfem.aliasEntryOk maps.memories)

/-- The linear scan finds the sole owner of a strictly interior pointer. -/
theorem mfem.IsAlias_of_soleOwner (ms : List (Int × mfem.mm.memory)) (base p : Int)
    (mem : mfem.mm.memory)
    (hm : mfem.findA ms base = some mem)
    (hlo : base < p) (hhi : p < base + (mem.bytes : Int))
    (hso : mfem.soleOwner ms base p = true) :
    mfem.IsAlias ms p = some base := by
  induction ms with
  | nil => simp [mfem.findA] at hm
  | cons kv rest ih =>
    obtain ⟨b, m⟩ := kv
    simp only [mfem.soleOwner, List.all_cons, Bool.and_eq_true] at hso
    obtain ⟨hso1, hso2⟩ := hso
    by_cases hb : b = base
    · subst hb
      simp [mfem.findA] at hm
      subst hm
      simp only [mfem.IsAlias]
      rw [if_neg (by omega), if_pos (by omega)]
    · simp only [mfem.findA, if_neg hb] at hm
      have hrest : mfem.IsAlias rest p = some base := ih hm hso2
      rw [Bool.or_eq_true] at hso1
      have hnc : ¬(b ≤ p ∧ p < b + (m.bytes : Int)) := by
        rcases hso1 with h1 | h1
        · exact absurd (by simpa using h1) hb
        · simp only [Bool.not_eq_eq_eq_not, Bool.not_true, Bool.and_eq_false_iff,
            decide_eq_false_iff_not] at h1
          intro hcon
          rcases h1 with h1 | h1 <;> [exact h1 hcon.1; exact h1 hcon.2]
      simp only [mfem.IsAlias]
      by_cases hgt : b > p
      · rw [if_pos hgt]
        exact hrest
      · rw [if_neg hgt, if_neg (by omega)]
        exact hrest

/-- An alias entry stays well-formed when a record's value is replaced
without changing its size (keys untouched). -/
theorem mfem.aliasEntryOk_replaceA (ms : List (Int × mfem.mm.memory)) (b : Int)
    (m m1 : mfem.mm.memory) (kv : mfem.AliasKey × mfem.mm.alias)
    (hm : mfem.findA ms b = some m) (hbytes : m1.bytes = m.bytes)
    (h : mfem.aliasEntryOk ms kv = true) :
    mfem.aliasEntryOk (mfem.replaceA ms b m1) kv = true := by
  obtain ⟨k, a⟩ := kv
  cases k with
  | recAddr _ => simp [mfem.aliasEntryOk] at h
  | userPtr q =>
    simp only [mfem.aliasEntryOk, Bool.and_eq_true] at h ⊢
    obtain ⟨h1, h2⟩ := h
    constructor
    · rw [mfem.isSome_findA_replaceA]
      exact h1
    · by_cases hq : a.mem = b
      · subst hq
        simp only [hm] at h2
        rw [mfem.findA_replaceA_self]
        simp only [hm, Option.map_some', hbytes]
        exact h2
      · rw [mfem.findA_replaceA_ne _ _ _ _ hq]
        exact h2

/-- C8: for a registered buffer of size `N` at `base` and a strictly
interior pointer `p` (sole owner, `p` not itself a base), ResolveAlias
succeeds and caches an Alias Record whose owner is `base` and whose
offset is `p - base`; a second call returns true with the state unchanged
(the O(1) cache hit, no rescan and no new record); and the Alias Record
invariant — every cached key differs from every registered base and has
`0 < offset < owner.bytes` — is preserved.  (For `p` equal to a
registered base the engine never reaches the alias path: `mm::Ptr`,
`Push` and `Pull` all test `Known` first.) -/
theorem c8_resolve_alias_offset_and_invariant (s : mfem.MMState) (base p : Int)
    (mem : mfem.mm.memory)
    (hm : mfem.findA s.maps.memories base = some mem)
    (hlo : base < p) (hhi : p < base + (mem.bytes : Int))
    (hk : mfem.Known s.maps p = false)
    (hso : mfem.soleOwner s.maps.memories base p = true)
    (hinv : mfem.aliasInv s.maps = true) :
    ∃ a s1, mfem.mm.Alias s p = .ok (true, s1) ∧
      mfem.findA s1.maps.aliases (mfem.AliasKey.userPtr p) = some a ∧
      a.mem = base ∧ a.offset = p - base ∧
      mfem.mm.Alias s1 p = .ok (true, s1) ∧
      mfem.aliasInv s1.maps = true := by
  cases hc : mfem.findA s.maps.aliases (mfem.AliasKey.userPtr p) with
  | some a =>
    have hAl : mfem.mm.Alias s p = .ok (true, s) := by
      simp [mfem.mm.Alias, mfem.Alias, hc]
    have hmem : (mfem.AliasKey.userPtr p, a) ∈ s.maps.aliases := mfem.findA_some_mem hc
    have hok : mfem.aliasEntryOk s.maps.memories (mfem.AliasKey.userPtr p, a) = true :=
      (List.all_eq_true.1 hinv) _ hmem
    simp only [mfem.aliasEntryOk, Bool.and_eq_true] at hok
    obtain ⟨hok1, hok2⟩ := hok
    cases hma : mfem.findA s.maps.memories a.mem with
    | none => rw [hma] at hok2; simp at hok2
    | some mo =>
      rw [hma] at hok2
      simp only [Bool.and_eq_true, decide_eq_true_eq] at hok2
      obtain ⟨⟨hpos, hlt⟩, hsum⟩ := hok2
      have hmemb : (a.mem, mo) ∈ s.maps.memories := mfem.findA_some_mem hma
      have hcond := (List.all_eq_true.1 hso) _ hmemb
      simp only [Bool.or_eq_true, beq_iff_eq, Bool.not_eq_eq_eq_not, Bool.not_true,
        Bool.and_eq_false_iff, decide_eq_false_iff_not, not_lt, not_le] at hcond
      have hab : a.mem = base := by
        rcases hcond with h1 | h1 | h1
        · exact h1
        · omega
        · omega
      have hoff : a.offset = p - base := by omega
      exact ⟨a, s, hAl, hc, hab, hoff, hAl, hinv⟩
  | none =>
    have hia : mfem.IsAlias s.maps.memories p = some base :=
      mfem.IsAlias_of_soleOwner _ _ _ _ hm hlo hhi hso
    refine ⟨{ addr := s.nextAliasAddr, mem := base, offset := p - base },
      { s with
        maps :=
          { memories := mfem.replaceA s.maps.memories base
              { mem with aliases := mem.aliases ++ [s.nextAliasAddr] },
            aliases := s.maps.aliases ++
              [(mfem.AliasKey.userPtr p,
                { addr := s.nextAliasAddr, mem := base, offset := p - base })] },
        nextAliasAddr := s.nextAliasAddr + 1 }, ?_, ?_, rfl, rfl, ?_, ?_⟩
    · simp [mfem.mm.Alias, mfem.Alias, hc, hia, mfem.InsertAlias, hm, mfem.emplaceA]
    · exact mfem.findA_append_self _ _ _ hc
    · have hfind := mfem.findA_append_self s.maps.aliases (mfem.AliasKey.userPtr p)
        { addr := s.nextAliasAddr, mem := base, offset := p - base } hc
      simp [mfem.mm.Alias, mfem.Alias, hfind]
    · rw [mfem.aliasInv] at hinv ⊢
      rw [List.all_eq_true] at hinv ⊢
      intro kv hkv
      simp only [List.mem_append, List.mem_singleton] at hkv
      rcases hkv with hkv | hkv
      · exact mfem.aliasEntryOk_replaceA _ _ _ _ _ hm rfl (hinv _ hkv)
      · subst hkv
        simp only [mfem.aliasEntryOk, Bool.and_eq_true]
        constructor
        · rw [mfem.isSome_findA_replaceA]
          simpa [mfem.Known] using hk
        · rw [mfem.findA_replaceA_self, hm]
          simp only [Option.map_some']
          simp only [Bool.and_eq_true, decide_eq_true_eq]
          refine ⟨⟨by omega, by omega⟩, by omega⟩

/-- Witness for C8: the interior pointer 1004 of the 8-byte buffer at
1000. -/
theorem c8_witness :
    mfem.findA mfem.stHost8.maps.memories 1000 = some mfem.memHost8 ∧
    (1000 : Int) < 1004 ∧ (1004 : Int) < 1000 + (mfem.memHost8.bytes : Int) ∧
    mfem.Known mfem.stHost8.maps 1004 = false ∧
    mfem.soleOwner mfem.stHost8.maps.memories 1000 1004 = true ∧
    mfem.aliasInv mfem.stHost8.maps = true ∧
    (∃ a s1, mfem.mm.Alias mfem.stHost8 1004 = .ok (true, s1) ∧
      mfem.findA s1.maps.aliases (mfem.AliasKey.userPtr 1004) = some a ∧
      a.mem = 1000 ∧ a.offset = 1004 - 1000 ∧
      mfem.mm.Alias s1 1004 = .ok (true, s1) ∧
      mfem.aliasInv s1.maps = true) :=
  ⟨rfl, by decide, by decide, rfl, by decide, by decide,
   c8_resolve_alias_offset_and_invariant mfem.stHost8 1000 1004 mfem.memHost8
     rfl (by decide) (by decide) rfl (by decide) (by decide)⟩

/-- After a successful `PtrKnown`, a second call on the post-state
returns the same pointer and changes nothing (in particular it records no
new copy), the pointer is still known, and the first call performed at
most one copy. -/
theorem mfem.PtrKnown_idem (cfg : mfem.DevCfg) (s : mfem.MMState) (ptr r : Int) (s1 : mfem.MMState)
    (h : mfem.PtrKnown cfg s ptr = .ok (r, s1)) :
    mfem.PtrKnown cfg s1 ptr = .ok (r, s1) ∧
    mfem.Known s1.maps ptr = true ∧
    s1.copies.length ≤ s.copies.length + 1 := by
  cases hm : mfem.findA s.maps.memories ptr with
  | none => simp [mfem.PtrKnown, hm] at h
  | some base =>
    obtain ⟨mh, mb, mhost, mdp, mal⟩ := base
    cases mhost with
    | true =>
      cases hg : cfg.usingDevice with
      | false =>
        simp [mfem.PtrKnown, hm, hg] at h
        obtain ⟨hr, hs1⟩ := h
        subst hr
        subst hs1
        refine ⟨?_, ?_, ?_⟩
        · simp [mfem.PtrKnown, hm, hg]
        · simp [mfem.Known, hm]
        · omega
      | true =>
        by_cases hbz : mb = 0
        · simp [mfem.PtrKnown, hm, hg, hbz] at h
        · by_cases hpz : ptr = 0
          · subst hpz
            cases mdp <;>
              simp [mfem.PtrKnown, hm, hg, hbz, mfem.CuMemAlloc, mfem.setMem] at h
          · cases mdp with
            | some d0 =>
              simp [mfem.PtrKnown, hm, hg, hbz, hpz, mfem.setMem, mfem.CuMemcpyHtoD] at h
              obtain ⟨hr, hs1⟩ := h
              subst hr
              subst hs1
              refine ⟨?_, ?_, ?_⟩
              · simp [mfem.PtrKnown, mfem.findA_replaceA_self, hm, hg, hbz, hpz]
              · simp [mfem.Known, mfem.isSome_findA_replaceA, hm]
              · simp
            | none =>
              simp [mfem.PtrKnown, hm, hg, hbz, hpz, mfem.setMem, mfem.CuMemcpyHtoD,
                mfem.CuMemAlloc] at h
              obtain ⟨hr, hs1⟩ := h
              subst hr
              subst hs1
              refine ⟨?_, ?_, ?_⟩
              · simp [mfem.PtrKnown, mfem.findA_replaceA_self, hm, hg, hbz, hpz]
              · simp [mfem.Known, mfem.isSome_findA_replaceA, hm]
              · simp
    | false =>
      cases hg : cfg.usingDevice with
      | true =>
        by_cases hbz : mb = 0
        · simp [mfem.PtrKnown, hm, hg, hbz] at h
        · cases mdp with
          | some d0 =>
            simp [mfem.PtrKnown, hm, hg, hbz] at h
            obtain ⟨hr, hs1⟩ := h
            subst hr
            subst hs1
            refine ⟨?_, ?_, ?_⟩
            · simp [mfem.PtrKnown, hm, hg, hbz]
            · simp [mfem.Known, hm]
            · omega
          | none =>
            simp [mfem.PtrKnown, hm, hg, hbz, mfem.CuMemAlloc, mfem.setMem] at h
            obtain ⟨hr, hs1⟩ := h
            subst hr
            subst hs1
            refine ⟨?_, ?_, ?_⟩
            · simp [mfem.PtrKnown, mfem.findA_replaceA_self, hm, hg, hbz]
            · simp [mfem.Known, mfem.isSome_findA_replaceA, hm]
            · simp
      | false =>
        by_cases hbz : mb = 0
        · simp [mfem.PtrKnown, hm, hg, hbz] at h
        · by_cases hpz : ptr = 0
          · subst hpz
            cases mdp <;>
              simp [mfem.PtrKnown, hm, hg, hbz, mfem.CuMemAlloc, mfem.setMem] at h
          · cases mdp with
            | some d0 =>
              simp [mfem.PtrKnown, hm, hg, hbz, hpz, mfem.setMem, mfem.CuMemcpyDtoH] at h
              obtain ⟨hr, hs1⟩ := h
              subst hr
              subst hs1
              refine ⟨?_, ?_, ?_⟩
              · simp [mfem.PtrKnown, mfem.findA_replaceA_self, hm, hg]
              · simp [mfem.Known, mfem.isSome_findA_replaceA, hm]
              · simp
            | none =>
              simp [mfem.PtrKnown, hm, hg, hbz, hpz, mfem.setMem, mfem.CuMemcpyDtoH,
                mfem.CuMemAlloc] at h
              obtain ⟨hr, hs1⟩ := h
              subst hr
              subst hs1
              refine ⟨?_, ?_, ?_⟩
              · simp [mfem.PtrKnown, mfem.findA_replaceA_self, hm, hg]
              · simp [mfem.Known, mfem.isSome_findA_replaceA, hm]
              · simp

/-- After a successful `PtrAlias`, a second call on the post-state
returns the same pointer and changes nothing; `PtrAlias` never changes
which base pointers are registered nor the alias map, and performs at
most one copy. -/
theorem mfem.PtrAlias_idem (cfg : mfem.DevCfg) (s : mfem.MMState) (ptr r : Int) (s1 : mfem.MMState)
    (h : mfem.PtrAlias cfg s ptr = .ok (r, s1)) :
    mfem.PtrAlias cfg s1 ptr = .ok (r, s1) ∧
    (∀ q, mfem.Known s1.maps q = mfem.Known s.maps q) ∧
    s1.maps.aliases = s.maps.aliases ∧
    s1.copies.length ≤ s.copies.length + 1 := by
  cases hfa : mfem.findA s.maps.aliases (mfem.AliasKey.userPtr ptr) with
  | none => simp [mfem.PtrAlias, hfa] at h
  | some a =>
    cases hma : mfem.findA s.maps.memories a.mem with
    | none => simp [mfem.PtrAlias, hfa, hma] at h
    | some base =>
      obtain ⟨mh, mb, mhost, mdp, mal⟩ := base
      cases mhost with
      | true =>
        cases hg : cfg.usingDevice with
        | false =>
          simp [mfem.PtrAlias, hfa, hma, hg] at h
          obtain ⟨hr, hs1⟩ := h
          subst hr
          subst hs1
          refine ⟨?_, fun q => rfl, rfl, ?_⟩
          · simp [mfem.PtrAlias, hfa, hma, hg]
          · omega
        | true =>
          by_cases hbz : mb = 0
          · simp [mfem.PtrAlias, hfa, hma, hg, hbz] at h
          · by_cases hh0 : mh = 0
            · cases mdp <;>
                simp [mfem.PtrAlias, hfa, hma, hg, hbz, hh0, mfem.CuMemAlloc, mfem.setMem] at h
            · cases mdp with
              | some d0 =>
                simp [mfem.PtrAlias, hfa, hma, hg, hbz, hh0, mfem.setMem,
                  mfem.CuMemcpyHtoD] at h
                obtain ⟨hr, hs1⟩ := h
                subst hr
                subst hs1
                refine ⟨?_, ?_, rfl, ?_⟩
                · simp [mfem.PtrAlias, hfa, mfem.findA_replaceA_self, hma, hg, hbz]
                · intro q
                  simp [mfem.Known, mfem.isSome_findA_replaceA]
                · simp
              | none =>
                simp [mfem.PtrAlias, hfa, hma, hg, hbz, hh0, mfem.setMem,
                  mfem.CuMemcpyHtoD, mfem.CuMemAlloc] at h
                obtain ⟨hr, hs1⟩ := h
                subst hr
                subst hs1
                refine ⟨?_, ?_, rfl, ?_⟩
                · simp [mfem.PtrAlias, hfa, mfem.findA_replaceA_self, hma, hg, hbz]
                · intro q
                  simp [mfem.Known, mfem.isSome_findA_replaceA]
                · simp
      | false =>
        cases hg : cfg.usingDevice with
        | true =>
          by_cases hbz : mb = 0
          · simp [mfem.PtrAlias, hfa, hma, hg, hbz] at h
          · cases mdp with
            | some d0 =>
              simp [mfem.PtrAlias, hfa, hma, hg, hbz] at h
              obtain ⟨hr, hs1⟩ := h
              subst hr
              subst hs1
              refine ⟨?_, fun q => rfl, rfl, ?_⟩
              · simp [mfem.PtrAlias, hfa, hma, hg, hbz]
              · omega
            | none =>
              simp [mfem.PtrAlias, hfa, hma, hg, hbz, mfem.CuMemAlloc, mfem.setMem] at h
              obtain ⟨hr, hs1⟩ := h
              subst hr
              subst hs1
              refine ⟨?_, ?_, rfl, ?_⟩
              · simp [mfem.PtrAlias, hfa, mfem.findA_replaceA_self, hma, hg, hbz]
              · intro q
                simp [mfem.Known, mfem.isSome_findA_replaceA]
              · simp
        | false =>
          by_cases hbz : mb = 0
          · simp [mfem.PtrAlias, hfa, hma, hg, hbz] at h
          · by_cases hh0 : mh = 0
            · cases mdp <;>
                simp [mfem.PtrAlias, hfa, hma, hg, hbz, hh0, mfem.CuMemAlloc, mfem.setMem] at h
            · cases mdp with
              | some d0 =>
                simp [mfem.PtrAlias, hfa, hma, hg, hbz, hh0, mfem.setMem,
                  mfem.CuMemcpyDtoH] at h
                obtain ⟨hr, hs1⟩ := h
                subst hr
                subst hs1
                refine ⟨?_, ?_, rfl, ?_⟩
                · simp [mfem.PtrAlias, hfa, mfem.findA_replaceA_self, hma, hg]
                · intro q
                  simp [mfem.Known, mfem.isSome_findA_replaceA]
                · simp
              | none =>
                simp [mfem.PtrAlias, hfa, hma, hg, hbz, hh0, mfem.setMem,
                  mfem.CuMemcpyDtoH, mfem.CuMemAlloc] at h
                obtain ⟨hr, hs1⟩ := h
                subst hr
                subst hs1
                refine ⟨?_, ?_, rfl, ?_⟩
                · simp [mfem.PtrAlias, hfa, mfem.findA_replaceA_self, hma, hg]
                · intro q
                  simp [mfem.Known, mfem.isSome_findA_replaceA]
                · simp

/-- The static `Alias` never copies and never changes which bases are
registered; on `true` the queried pointer is cached afterwards, and on
`false` the state is untouched. -/
theorem mfem.Alias_ok_inv (s : mfem.MMState) (ptr : Int) (b : Bool) (s1 : mfem.MMState)
    (h : mfem.Alias s ptr = .ok (b, s1)) :
    (∀ q, mfem.Known s1.maps q = mfem.Known s.maps q) ∧
    s1.copies = s.copies ∧
    (b = true → (mfem.findA s1.maps.aliases (mfem.AliasKey.userPtr ptr)).isSome = true) ∧
    (b = false → s1 = s) := by
  by_cases hc : (mfem.findA s.maps.aliases (mfem.AliasKey.userPtr ptr)).isSome = true
  · simp [mfem.Alias, hc] at h
    obtain ⟨hb, hs1⟩ := h
    subst hb
    subst hs1
    exact ⟨fun q => rfl, rfl, fun _ => hc, fun hb => by simp at hb⟩
  · rw [Bool.not_eq_true] at hc
    cases hi : mfem.IsAlias s.maps.memories ptr with
    | none =>
      simp [mfem.Alias, hc, hi] at h
      obtain ⟨hb, hs1⟩ := h
      subst hb
      subst hs1
      exact ⟨fun q => rfl, rfl, fun hb => by simp at hb, fun _ => rfl⟩
    | some b0 =>
      cases hmb : mfem.findA s.maps.memories b0 with
      | none => simp [mfem.Alias, hc, hi, mfem.InsertAlias, hmb] at h
      | some memb =>
        simp [mfem.Alias, hc, hi, mfem.InsertAlias, hmb, mfem.emplaceA] at h
        obtain ⟨hb, hs1⟩ := h
        subst hb
        subst hs1
        refine ⟨?_, rfl, ?_, fun hb => by simp at hb⟩
        · intro q
          simp [mfem.Known, mfem.isSome_findA_replaceA]
        · intro _
          have : mfem.findA s.maps.aliases (mfem.AliasKey.userPtr ptr) = none := by
            cases hx : mfem.findA s.maps.aliases (mfem.AliasKey.userPtr ptr)
            · rfl
            · rw [hx] at hc
              simp at hc
          simp [mfem.findA_append_self _ _ _ this]

/-- C7: whenever ResolvePointer succeeds, calling it again with the same
pointer and the same active mode succeeds with the same returned pointer,
the second call performs no copy, and the first call performed at most
one — so at most one copy happens across the two calls. -/
theorem c7_ptr_idempotent (cfg : mfem.DevCfg) (s : mfem.MMState) (ptr r : Int) (s1 : mfem.MMState)
    (h : mfem.mm.Ptr cfg s ptr = .ok (r, s1)) :
    ∃ s2, mfem.mm.Ptr cfg s1 ptr = .ok (r, s2) ∧ s2.copies = s1.copies ∧
      s1.copies.length ≤ s.copies.length + 1 := by
  rw [mfem.mm.Ptr] at h
  cases hf : mfem.MmDeviceIniFilter cfg with
  | error e =>
    rw [hf] at h
    simp at h
  | ok bf =>
    rw [hf] at h
    cases bf with
    | true =>
      simp at h
      obtain ⟨hr, hs1⟩ := h
      subst hr
      subst hs1
      exact ⟨s, by simp [mfem.mm.Ptr, hf], rfl, Nat.le_succ _⟩
    | false =>
      cases hk : mfem.Known s.maps ptr with
      | true =>
        simp only [hk, if_true] at h
        obtain ⟨h2, hkn1, hlen⟩ := mfem.PtrKnown_idem cfg s ptr r s1 h
        exact ⟨s1, by simp [mfem.mm.Ptr, hf, hkn1, h2], rfl, hlen⟩
      | false =>
        simp only [hk, Bool.false_eq_true, if_false] at h
        cases hA : mfem.Alias s ptr with
        | error e =>
          rw [hA] at h
          simp at h
        | ok pair =>
          obtain ⟨b, sA⟩ := pair
          rw [hA] at h
          cases b with
          | false =>
            obtain ⟨hKq0, hcop, _, hid⟩ := mfem.Alias_ok_inv s ptr false sA hA
            have hsA : sA = s := hid rfl
            subst hsA
            cases hg : cfg.usingDevice with
            | true =>
              rw [hg] at h
              simp at h
            | false =>
              rw [hg] at h
              simp at h
              obtain ⟨hr, hs1⟩ := h
              subst hr
              subst hs1
              exact ⟨sA, by simp [mfem.mm.Ptr, hf, hk, hA, hg], rfl, Nat.le_succ _⟩
          | true =>
            simp only at h
            obtain ⟨hPA2, hKq, hAl, hlenPA⟩ := mfem.PtrAlias_idem cfg sA ptr r s1 h
            obtain ⟨hKq0, hcop, hsome, _⟩ := mfem.Alias_ok_inv s ptr true sA hA
            have hk1 : mfem.Known s1.maps ptr = false := by
              rw [hKq, hKq0]
              exact hk
            have hsome1 : (mfem.findA s1.maps.aliases (mfem.AliasKey.userPtr ptr)).isSome = true := by
              rw [hAl]
              exact hsome rfl
            have hA1 : mfem.Alias s1 ptr = .ok (true, s1) := by
              simp [mfem.Alias, hsome1]
            refine ⟨s1, ?_, rfl, ?_⟩
            · simp [mfem.mm.Ptr, hf, hk1, hA1, hPA2]
            · calc s1.copies.length ≤ sA.copies.length + 1 := hlenPA
                _ = s.copies.length + 1 := by rw [hcop]

/-- The state of `stHost8` after one device resolution: mirror allocated
at 5000, record DeviceValid, one host-to-device copy logged. -/
def mfem.stHost8Pushed : mfem.MMState :=
  { maps :=
      { memories := [(1000,
          { h_ptr := 1000, bytes := 8, host := false, d_ptr := some 5000, aliases := [] })],
        aliases := [] },
    nextDev := 5009, nextAliasAddr := 0, deviceAllocs := [5000],
    copies := [mfem.CopyEvt.htod 5000 1000 8] }

/-- Witness for C7: resolving the HostValid record of `stHost8` under the
device-active configuration pushes once and returns the device pointer;
the theorem then yields the idempotent second call. -/
theorem c7_witness :
    mfem.mm.Ptr mfem.cfgOn mfem.stHost8 1000 = .ok (5000, mfem.stHost8Pushed) ∧
    (∃ s2, mfem.mm.Ptr mfem.cfgOn mfem.stHost8Pushed 1000 = .ok (5000, s2) ∧
      s2.copies = mfem.stHost8Pushed.copies ∧
      mfem.stHost8Pushed.copies.length ≤ mfem.stHost8.copies.length + 1) :=
  ⟨rfl, c7_ptr_idempotent mfem.cfgOn mfem.stHost8 1000 5000 mfem.stHost8Pushed rfl⟩
